import Mathlib

/-!
Verification of the Uno round/turn engine (`uno_agents`): shallow embedding of
`classes/cards.py` and `classes/dealer.py`.  Randomness (`random.shuffle`) is
modelled by an explicit oracle `shuf : List Card → List Card`, constrained by a
permutation (or length-preservation) hypothesis where a theorem needs it.  The
abstract player decision (`BasePlayer.play_card`) is modelled by an oracle
`playFn : Hand → Card → Option (Card × Hand)` returning the played card and the
player's remaining hand; contracts on it mirror the documented player contract
(the player removes the returned card from its own hand).  Python exceptions
are modelled by `Except UnoError`; `UnoError.indexError` is the builtin
`IndexError` raised by list indexing/`pop` on an out-of-range index.
-/

set_option maxRecDepth 10000

namespace Uno

/-- Embeds `CardColor` from cards.py (enum order R, G, Y, B, A). -/
inductive CardColor
  | R
  | G
  | Y
  | B
  | A
  deriving DecidableEq

/-- Embeds `CardType` from cards.py. -/
inductive CardType
  | SKIP
  | DRAW2
  | REV
  | WILD
  | WILD4
  | N0
  | N1
  | N2
  | N3
  | N4
  | N5
  | N6
  | N7
  | N8
  | N9
  deriving DecidableEq

/-- Numeric rank of a number card: `int(self.card_type.value)`.  Only reached
for number kinds (the `value` property tests wild/action kinds first). -/
def CardType.rank : CardType → Nat
  | .N0 => 0
  | .N1 => 1
  | .N2 => 2
  | .N3 => 3
  | .N4 => 4
  | .N5 => 5
  | .N6 => 6
  | .N7 => 7
  | .N8 => 8
  | .N9 => 9
  | _ => 0

/-- Embeds `Card` (cards.py): a color and a kind. -/
structure Card where
  color : CardColor
  card_type : CardType
  deriving DecidableEq

/-- Embeds the `Card.value` computed property. -/
def Card.value (c : Card) : Nat :=
  if c.card_type = CardType.WILD ∨ c.card_type = CardType.WILD4 then 50
  else if c.card_type = CardType.SKIP ∨ c.card_type = CardType.DRAW2 ∨
      c.card_type = CardType.REV then 20
  else c.card_type.rank

/-- Embeds the `Card.is_action` computed property. -/
def Card.is_action (c : Card) : Bool :=
  decide (c.card_type = CardType.WILD ∨ c.card_type = CardType.WILD4 ∨
    c.card_type = CardType.SKIP ∨ c.card_type = CardType.DRAW2 ∨
    c.card_type = CardType.REV)

/-- The nine nonzero number kinds, in the order of `range(1, 10)`. -/
def numberTypes : List CardType :=
  [.N1, .N2, .N3, .N4, .N5, .N6, .N7, .N8, .N9]

/-- Cards appended by `init_deck` for one non-wild color, in append order:
one 0, two of each 1..9 (consecutively), then SKIP/REV/DRAW2 twice. -/
def nonWildColorCards (color : CardColor) : List Card :=
  ⟨color, CardType.N0⟩ ::
    ((numberTypes.map (fun t => [(⟨color, t⟩ : Card), ⟨color, t⟩])).flatten ++
      [⟨color, .SKIP⟩, ⟨color, .REV⟩, ⟨color, .DRAW2⟩,
       ⟨color, .SKIP⟩, ⟨color, .REV⟩, ⟨color, .DRAW2⟩])

/-- Cards appended by `init_deck` for `CardColor.A`: WILD/WILD4 four times. -/
def wildCards : List Card :=
  [⟨.A, .WILD⟩, ⟨.A, .WILD4⟩, ⟨.A, .WILD⟩, ⟨.A, .WILD4⟩,
   ⟨.A, .WILD⟩, ⟨.A, .WILD4⟩, ⟨.A, .WILD⟩, ⟨.A, .WILD4⟩]

/-- Embeds `init_deck` (cards.py): iterates colors in enum order, appending
the per-color cards; for color A the wild block. -/
def init_deck : List Card :=
  nonWildColorCards .R ++ nonWildColorCards .G ++ nonWildColorCards .Y ++
    nonWildColorCards .B ++ wildCards

/-- Embeds `Hand` (cards.py): a `UserList` of cards (`data`) plus the cached
running `points` total. -/
structure Hand where
  data : List Card
  points : Int
  deriving DecidableEq

/-- Embeds `Hand.__init__`: empty list, points 0. -/
def Hand.empty : Hand := ⟨[], 0⟩

/-- Embeds `Hand.append`: appends the card and adds its value to the cache. -/
def Hand.append (h : Hand) (c : Card) : Hand :=
  ⟨h.data ++ [c], h.points + c.value⟩

/-- Removal of the card at normalized index `j` (the body of `list.pop(i)`
after resolving a negative index): out-of-range raises (`none`). -/
def Hand.popAt (h : Hand) (j : Int) : Option (Card × Hand) :=
  if 0 ≤ j ∧ j < (h.data.length : Int) then
    match h.data[j.toNat]? with
    | some c => some (c, ⟨h.data.eraseIdx j.toNat, h.points - c.value⟩)
    | none => none
  else none

/-- Embeds `Hand.pop(index)` with Python list-index semantics: raises
(`none`) on an empty hand or an out-of-range index, otherwise removes the
card at the (possibly negative) index and subtracts its value. -/
def Hand.pop (h : Hand) (i : Int) : Option (Card × Hand) :=
  if h.data.isEmpty then none
  else h.popAt (if i < 0 then i + h.data.length else i)

/-- One operation on a `Hand` (for the incremental-points claim). -/
inductive HandOp
  | app (c : Card)
  | pop (i : Int)

/-- Applies one `HandOp`; a failing `pop` propagates the exception. -/
def applyOp (h : Hand) : HandOp → Option Hand
  | .app c => some (h.append c)
  | .pop i => (h.pop i).map Prod.snd

/-- Applies a sequence of hand operations, stopping at the first failure. -/
def applyOps : List HandOp → Hand → Option Hand
  | [], h => some h
  | op :: ops, h =>
    match applyOp h op with
    | none => none
    | some h2 => applyOps ops h2

/-- Sum of the values of a list of cards (as an integer). -/
def handSum (l : List Card) : Int :=
  (l.map (fun c => (c.value : Int))).sum

/-- The cached points of a hand agree with its cards (the `Hand` invariant). -/
def HandInv (h : Hand) : Prop :=
  h.points = handSum h.data

instance (h : Hand) : Decidable (HandInv h) := by
  unfold HandInv; infer_instance

/-- Embeds `BasePlayer` state (player.py): identity, owned hand, cumulative
points across rounds. -/
structure Player where
  player_id : Nat
  cards : Hand
  points : Int
  deriving DecidableEq

/-- Embeds `BasePlayer.__init__`: empty hand, zero points. -/
def mkPlayer (pid : Nat) : Player :=
  ⟨pid, Hand.empty, 0⟩

-- Embeds the game constants of game_constants.py.
namespace Constants

/-- `Constants.MAX_POINTS`: points required to win the game. -/
def MAX_POINTS : Int := 500

/-- `Constants.MIN_PLAYERS`. -/
def MIN_PLAYERS : Nat := 2

/-- `Constants.MAX_PLAYERS`. -/
def MAX_PLAYERS : Nat := 10

/-- `Constants.CARDS_IN_DECK`. -/
def CARDS_IN_DECK : Nat := 108

end Constants

/-- Embeds the mutable state of `Dealer` (dealer.py). -/
structure Dealer where
  players : List Player
  draw_pile : List Card
  discard_pile : List Card
  turn_direction : Int
  round_start_index : Int
  current_player_index : Int
  current_round : Nat
  current_move : Nat
  has_winner : Bool
  deriving DecidableEq

/-- Embeds `Dealer.__init__`: no players, full fresh deck as draw pile,
direction 1, indices -1, counters 0, no winner.  (`discard_pile` is only
created by `init_round`; it is modelled as empty before that.) -/
def Dealer.init : Dealer :=
  { players := []
    draw_pile := init_deck
    discard_pile := []
    turn_direction := 1
    round_start_index := -1
    current_player_index := -1
    current_round := 0
    current_move := 0
    has_winner := false }

/-- Embeds `Dealer.add_player`: appends a freshly constructed player
(`number_of_players` is kept implicitly as `players.length`). -/
def add_player (st : Dealer) (pid : Nat) : Dealer :=
  { st with players := st.players ++ [mkPlayer pid] }

/-- Python list indexing semantics for `players[i]` with `i : Int`:
a negative index counts from the end; out of range raises. -/
def pyIdx (n : Nat) (i : Int) : Option Nat :=
  let j := if i < 0 then i + n else i
  if 0 ≤ j ∧ j < n then some j.toNat else none

/-- Modelled Python exceptions.  `indexError` is the builtin `IndexError`
raised by out-of-range list indexing / `pop` on an empty list; the spec's
`EmptyPileError` and `DeckExhaustedError` kinds are included so that
statements can distinguish them, but no code path produces them (the
repository defines no such classes). -/
inductive UnoError
  | indexError
  | emptyPileError
  | deckExhaustedError
  deriving DecidableEq

instance exceptDecEq {ε α : Type} [DecidableEq ε] [DecidableEq α] :
    DecidableEq (Except ε α)
  | .error a, .error b =>
    if h : a = b then .isTrue (by rw [h])
    else .isFalse (fun he => h (Except.error.inj he))
  | .error _, .ok _ => .isFalse (fun he => Except.noConfusion he)
  | .ok _, .error _ => .isFalse (fun he => Except.noConfusion he)
  | .ok a, .ok b =>
    if h : a = b then .isTrue (by rw [h])
    else .isFalse (fun he => h (Except.ok.inj he))

/-- Embeds `Dealer.top_card`: `self.discard_pile[-1]`, which raises
`IndexError` on an empty list. -/
def top_card (st : Dealer) : Except UnoError Card :=
  match st.discard_pile.getLast? with
  | some c => .ok c
  | none => .error .indexError

/-- Resets a wild card's color to A (the body of the reshuffle /
collect-cards loops); leaves other cards unchanged. -/
def resetWild (c : Card) : Card :=
  if c.card_type = CardType.WILD ∨ c.card_type = CardType.WILD4 then
    { c with color := CardColor.A }
  else c

/-- Python `l[-1:]`: a one-element list holding the last element, or `[]`. -/
def lastSlice (l : List Card) : List Card :=
  match l.getLast? with
  | some c => [c]
  | none => []

/-- One iteration of the loop body of `Dealer.draw_card`: if the draw pile is
empty, move every discard card but the top one into the draw pile, shuffle it
and reset wild colors, keeping `[top]` as the discard pile; then `pop(0)` the
draw pile (raising `IndexError` if it is still empty) and append the card to
the hand. -/
def drawOneCard (shuf : List Card → List Card) (dp disc : List Card)
    (hand : Hand) : Except UnoError (List Card × List Card × Hand) :=
  let p := if dp.isEmpty then ((shuf disc.dropLast).map resetWild, lastSlice disc)
    else (dp, disc)
  match p.1 with
  | [] => .error .indexError
  | c :: rest => .ok (rest, p.2, hand.append c)

/-- Embeds `Dealer.draw_card(player, number_of_cards)` at pile level: the
`for _ in range(number_of_cards)` loop repeats the unit draw (with its
reshuffle check) once per card. -/
def draw_card (shuf : List Card → List Card) :
    Nat → List Card → List Card → Hand →
    Except UnoError (List Card × List Card × Hand)
  | 0, dp, disc, h => .ok (dp, disc, h)
  | n + 1, dp, disc, h =>
    match drawOneCard shuf dp disc h with
    | .error e => .error e
    | .ok (dp2, disc2, h2) => draw_card shuf n dp2 disc2 h2

/-- Replaces the hand of the player at list index `i` (in-place mutation of
`player.cards` in Python). -/
def setHand (st : Dealer) (i : Nat) (h : Hand) : Dealer :=
  match st.players[i]? with
  | some p => { st with players := st.players.set i { p with cards := h } }
  | none => st

/-- The hand of the player at list index `i` (empty if out of range). -/
def handOf (st : Dealer) (i : Nat) : Hand :=
  match st.players[i]? with
  | some p => p.cards
  | none => Hand.empty

/-- `Dealer.draw_card` lifted to the dealer state: draws `n` cards into the
hand of the player at index `i`. -/
def dealerDraw (shuf : List Card → List Card) (st : Dealer) (i : Nat)
    (n : Nat) : Except UnoError Dealer :=
  match st.players[i]? with
  | none => .error .indexError
  | some p =>
    match draw_card shuf n st.draw_pile st.discard_pile p.cards with
    | .error e => .error e
    | .ok (dp, disc, h) =>
      .ok { setHand st i h with draw_pile := dp, discard_pile := disc }

/-- The common tail of `Dealer.play_move` once the player returned a card
(dealer.py lines 221-231): append the card to the discard pile, flip the
direction and return `False` for a Reverse, otherwise return whether the
card is SKIP/DRAW2/WILD4. -/
def place_card (st : Dealer) (i : Nat) (c : Card) (h : Hand) : Dealer × Bool :=
  let st0 := setHand st i h
  let st1 := { st0 with discard_pile := st0.discard_pile ++ [c] }
  if c.card_type = CardType.REV then
    ({ st1 with turn_direction := -st1.turn_direction }, false)
  else
    (st1, decide (c.card_type = CardType.SKIP ∨ c.card_type = CardType.DRAW2 ∨
      c.card_type = CardType.WILD4))

/-- Embeds `Dealer.play_move(player, play_action_card)` for the player at
index `i`.  The player's `play_card` is the oracle `playFn`, returning the
played card (with a wild's color already assigned) and the player's remaining
hand, or `none` when the player has nothing to play. -/
def play_move (shuf : List Card → List Card)
    (playFn : Hand → Card → Option (Card × Hand)) (st : Dealer) (i : Nat)
    (pac : Bool) : Except UnoError (Dealer × Bool) :=
  match top_card st with
  | .error e => .error e
  | .ok active =>
    if active.card_type = CardType.SKIP ∧ pac = true then .ok (st, false)
    else if active.card_type = CardType.DRAW2 ∧ pac = true then
      match dealerDraw shuf st i 2 with
      | .error e => .error e
      | .ok st2 => .ok (st2, false)
    else if active.card_type = CardType.WILD4 ∧ pac = true then
      match dealerDraw shuf st i 4 with
      | .error e => .error e
      | .ok st2 => .ok (st2, false)
    else
      match st.players[i]? with
      | none => .error .indexError
      | some p =>
        match playFn p.cards active with
        | some (c, h) => .ok (place_card st i c h)
        | none =>
          match dealerDraw shuf st i 1 with
          | .error e => .error e
          | .ok st2 =>
            match st2.players[i]? with
            | none => .error .indexError
            | some p2 =>
              match playFn p2.cards active with
              | none => .ok (st2, false)
              | some (c, h) => .ok (place_card st2 i c h)

/-- One pass of the dealing loop of `init_round`: for each player in order,
pop the front card of the pile and append it to that player's hand; raises
`IndexError` (`none`) if the pile runs out. -/
def dealPass : List Card → List Player → Option (List Card × List Player)
  | dp, [] => some (dp, [])
  | [], _ :: _ => none
  | c :: dp, p :: ps =>
    match dealPass dp ps with
    | none => none
    | some (dp2, ps2) => some (dp2, { p with cards := p.cards.append c } :: ps2)

/-- The `for _ in range(7)` outer dealing loop of `init_round`. -/
def dealRounds : Nat → List Card → List Player → Option (List Card × List Player)
  | 0, dp, ps => some (dp, ps)
  | k + 1, dp, ps =>
    match dealPass dp ps with
    | none => none
    | some (dp2, ps2) => dealRounds k dp2 ps2

/-- The burn loop of `init_round`: pop the front of the draw pile into the
discard pile until a non-action card appears; raises (`none`) if the pile is
exhausted first. -/
def burn : List Card → List Card → Option (List Card × List Card)
  | [], _ => none
  | c :: dp, disc =>
    if c.is_action then burn dp (disc ++ [c]) else some (dp, disc ++ [c])

/-- Embeds `Dealer.init_round`: advance `round_start_index` (0 on the first
round), set `current_player_index`, bump the round counter, set
`current_move := 1`, shuffle the draw pile, deal 7 passes, then burn cards
into a fresh discard pile until a non-action card is on top. -/
def init_round (shuf : List Card → List Card) (st : Dealer) :
    Except UnoError Dealer :=
  let rsi : Int :=
    if st.round_start_index = -1 then 0
    else (st.round_start_index + 1) % (st.players.length : Int)
  let dp := shuf st.draw_pile
  match dealRounds 7 dp st.players with
  | none => .error .indexError
  | some (dp2, ps) =>
    match burn dp2 [] with
    | none => .error .indexError
    | some (dp3, disc) =>
      .ok { st with
        players := ps
        draw_pile := dp3
        discard_pile := disc
        round_start_index := rsi
        current_player_index := rsi
        current_round := st.current_round + 1
        current_move := 1 }

/-- Embeds `self.current_move += 1` at the top of the round loop body. -/
def bump (st : Dealer) : Dealer :=
  { st with current_move := st.current_move + 1 }

/-- Embeds one iteration of the `while True` loop of `Dealer.play_round`:
bump the move counter, resolve the current player's move, then either end the
round (`Sum.inl`, when that player's hand is empty) or advance
`current_player_index` by `turn_direction` modulo the player count and
continue (`Sum.inr`). -/
def loop_iteration (shuf : List Card → List Card)
    (playFn : Hand → Card → Option (Card × Hand)) (st : Dealer) (pac : Bool) :
    Except UnoError (Dealer ⊕ (Dealer × Bool)) :=
  let st1 := bump st
  match pyIdx st1.players.length st1.current_player_index with
  | none => .error .indexError
  | some i =>
    match play_move shuf playFn st1 i pac with
    | .error e => .error e
    | .ok (st2, pac2) =>
      match st2.players[i]? with
      | none => .error .indexError
      | some p =>
        if p.cards.data.length = 0 then .ok (.inl st2)
        else .ok (.inr ({ st2 with current_player_index :=
          (st2.current_player_index + st2.turn_direction) %
            (st2.players.length : Int) }, pac2))

/-- Embeds `Dealer.collect_cards`: extend the draw pile with the discard pile
and every player's hand, empty the discard pile, give every player a fresh
empty hand, and reset every wild card's color to A over the whole new pile. -/
def collect_cards (st : Dealer) : Dealer :=
  { st with
    draw_pile :=
      ((st.draw_pile ++ st.discard_pile ++
        (st.players.map (fun p => p.cards.data)).flatten).map resetWild)
    discard_pile := []
    players := st.players.map (fun p => { p with cards := Hand.empty }) }

/-- The cached round score summed by `play_round` after the loop:
`sum(player.hand_points() for player in self.players)`. -/
def roundPointsCached (st : Dealer) : Int :=
  (st.players.map (fun p => p.cards.points)).sum

/-- Embeds the tail of `Dealer.play_round` after the loop breaks: sum every
player's cached hand points, credit them to
`self.players[self.current_player_index]`, set `has_winner` when that
player's cumulative points reach `Constants.MAX_POINTS`, then
`collect_cards`. -/
def finish_round (st : Dealer) : Except UnoError Dealer :=
  match pyIdx st.players.length st.current_player_index with
  | none => .error .indexError
  | some w =>
    match st.players[w]? with
    | none => .error .indexError
    | some winner =>
      let winner2 := { winner with points := winner.points + roundPointsCached st }
      let st1 := { st with players := st.players.set w winner2 }
      let st2 :=
        if Constants.MAX_POINTS ≤ winner2.points then
          { st1 with has_winner := true }
        else st1
      .ok (collect_cards st2)

/-- The `while True` round loop of `play_round`, with explicit fuel; `none`
means the fuel ran out before the round ended. -/
def round_loop (shuf : List Card → List Card)
    (playFn : Hand → Card → Option (Card × Hand)) :
    Nat → Dealer → Bool → Except UnoError (Option Dealer)
  | 0, _, _ => .ok none
  | f + 1, st, pac =>
    match loop_iteration shuf playFn st pac with
    | .error e => .error e
    | .ok (.inl st2) => .ok (some st2)
    | .ok (.inr (st2, pac2)) => round_loop shuf playFn f st2 pac2

/-- Embeds `Dealer.play_round`: init the round, run the loop (starting with
`play_action_card = False`), then score / flag winner / collect. -/
def play_round (shuf : List Card → List Card)
    (playFn : Hand → Card → Option (Card × Hand)) (fuel : Nat) (st : Dealer) :
    Except UnoError (Option Dealer) :=
  match init_round shuf st with
  | .error e => .error e
  | .ok st1 =>
    match round_loop shuf playFn fuel st1 false with
    | .error e => .error e
    | .ok none => .ok none
    | .ok (some st2) =>
      match finish_round st2 with
      | .error e => .error e
      | .ok st3 => .ok (some st3)

/-- Embeds the `while not self.has_winner` loop of `Dealer.play_game`, with
explicit fuel for the number of rounds. -/
def play_game (shuf : List Card → List Card)
    (playFn : Hand → Card → Option (Card × Hand)) (innerFuel : Nat) :
    Nat → Dealer → Except UnoError (Option Dealer)
  | 0, st => if st.has_winner then .ok (some st) else .ok none
  | f + 1, st =>
    if st.has_winner then .ok (some st)
    else
      match play_round shuf playFn innerFuel st with
      | .error e => .error e
      | .ok none => .ok none
      | .ok (some st2) => play_game shuf playFn innerFuel f st2

/-- Total number of cards in play: draw pile + discard pile + all hands. -/
def totalCards (st : Dealer) : Nat :=
  st.draw_pile.length + st.discard_pile.length +
    (st.players.map (fun p => p.cards.data.length)).sum

/-- The player-contract used for counting claims: when the decision oracle
returns a card, the remaining hand has exactly one card fewer (the player
removed the played card from its own hand). -/
def PlayCount (playFn : Hand → Card → Option (Card × Hand)) : Prop :=
  ∀ h a c h2, playFn h a = some (c, h2) → h2.data.length + 1 = h.data.length

/-- The player-contract used for scoring claims: the decision oracle
preserves the cached-points invariant of the hand it returns. -/
def PlayPoints (playFn : Hand → Card → Option (Card × Hand)) : Prop :=
  ∀ h a c h2, playFn h a = some (c, h2) → HandInv h → HandInv h2

/-- A simple concrete player strategy used to instantiate the oracle in
witnesses: always plays the first card of the hand (removing it, with the
cache updated the way `Hand.pop` does). -/
def popFront : Hand → Card → Option (Card × Hand) :=
  fun h _ =>
    match h.data with
    | [] => none
    | c :: rest => some (c, ⟨rest, h.points - c.value⟩)

/-- Default card used only to express heads of nonempty lists totally. -/
def dCard : Card := ⟨CardColor.A, CardType.WILD⟩

-- Concrete cards and states used by witnesses.

/-- A red 5. -/
def cR5 : Card := ⟨CardColor.R, CardType.N5⟩

/-- A red 2. -/
def cR2 : Card := ⟨CardColor.R, CardType.N2⟩

/-- A green 3. -/
def cG3 : Card := ⟨CardColor.G, CardType.N3⟩

/-- A blue 7. -/
def cB7 : Card := ⟨CardColor.B, CardType.N7⟩

/-- A yellow 2. -/
def cY2 : Card := ⟨CardColor.Y, CardType.N2⟩

/-- A small mid-round state: two players, player 0 to move holding one
playable card. -/
def stSmall : Dealer :=
  { players := [⟨0, ⟨[cR5], 5⟩, 0⟩, ⟨1, ⟨[cG3], 3⟩, 0⟩]
    draw_pile := [cB7, cY2]
    discard_pile := [cR2]
    turn_direction := 1
    round_start_index := 0
    current_player_index := 0
    current_round := 1
    current_move := 1
    has_winner := false }

/-- A fresh dealer with two players added, as at the start of a game. -/
def st2p : Dealer := add_player (add_player Dealer.init 0) 1

/-- The state produced by `init_round` on `st2p` with the identity shuffle. -/
def stW1 : Dealer :=
  match init_round id st2p with
  | .ok s => s
  | .error _ => Dealer.init

/-- The state after player 0 moves from `stSmall` inside the round loop
(the loop body bumps the move counter first). -/
def stC3after : Dealer :=
  match play_move id popFront (bump stSmall) 0 false with
  | .ok (s, _) => s
  | .error _ => Dealer.init

/-- A pending-DrawTwo state: the top of the discard pile is a Draw Two that
player 0 must absorb. -/
def stD2 : Dealer :=
  { stSmall with discard_pile := [⟨CardColor.R, CardType.DRAW2⟩] }

/-- Result state and flag of player 0 absorbing the Draw Two in `stD2`. -/
def stD2res : Dealer × Bool :=
  match play_move id popFront stD2 0 true with
  | .ok r => r
  | .error _ => (Dealer.init, true)

/-- A pending-Skip state: the top of the discard pile is a Skip that
player 0 must absorb. -/
def stSK : Dealer :=
  { stSmall with discard_pile := [⟨CardColor.R, CardType.SKIP⟩] }

/-- Result state and flag of player 0 absorbing the Skip in `stSK`. -/
def stSKres : Dealer × Bool :=
  match play_move id popFront stSK 0 true with
  | .ok r => r
  | .error _ => (Dealer.init, true)

/-- Discard pile used by the reshuffle witness: a colored wild sits below the
top card. -/
def discT : List Card :=
  [⟨CardColor.R, CardType.N1⟩, ⟨CardColor.G, CardType.WILD⟩,
   ⟨CardColor.B, CardType.N3⟩]

/-- Near-game-end state A: player 0 (to be credited) has 480 points, the
other hand is worth 5. -/
def stA480 : Dealer :=
  { players := [⟨0, ⟨[], 0⟩, 480⟩, ⟨1, ⟨[cR5], 5⟩, 0⟩]
    draw_pile := []
    discard_pile := [cR2]
    turn_direction := 1
    round_start_index := 0
    current_player_index := 0
    current_round := 1
    current_move := 9
    has_winner := false }

/-- Near-game-end state B: player 0 has 480 points, the other hand is worth
40, so the round pushes player 0 to 520. -/
def stB480 : Dealer :=
  { stA480 with players := [⟨0, ⟨[], 0⟩, 480⟩,
      ⟨1, ⟨[⟨CardColor.G, CardType.SKIP⟩, ⟨CardColor.B, CardType.REV⟩], 40⟩, 0⟩] }

/-- The state after `finish_round` on `stB480`. -/
def stB480res : Dealer :=
  match finish_round stB480 with
  | .ok s => s
  | .error _ => Dealer.init

/-- Hand-operation sequence used by the incremental-points witness. -/
def opsW9 : List HandOp :=
  [.app cR5, .app cG3, .app cB7, .pop 1, .app cY2, .pop (-1), .pop 0]

/-- The hand produced by running `opsW9` from the empty hand. -/
def hW9 : Hand :=
  (applyOps opsW9 Hand.empty).getD Hand.empty

-- Helper lemmas.

theorem handSum_nil : handSum [] = 0 := rfl

theorem handSum_cons (c : Card) (l : List Card) :
    handSum (c :: l) = c.value + handSum l := by
  simp [handSum]

theorem handSum_append_one (l : List Card) (c : Card) :
    handSum (l ++ [c]) = handSum l + c.value := by
  simp [handSum]

theorem handInv_append (h : Hand) (c : Card) (hh : HandInv h) :
    HandInv (h.append c) := by
  unfold HandInv at *
  simp [Hand.append, handSum_append_one, hh]

theorem handSum_eraseIdx :
    ∀ (l : List Card) (k : Nat) (c : Card), l[k]? = some c →
      handSum (l.eraseIdx k) + c.value = handSum l := by
  intro l
  induction l with
  | nil => intro k c h; simp at h
  | cons x xs ih =>
    intro k c h
    cases k with
    | zero =>
      simp at h
      subst h
      simp [List.eraseIdx_cons_zero, handSum_cons]
      omega
    | succ k =>
      rw [List.getElem?_cons_succ] at h
      rw [List.eraseIdx_cons_succ, handSum_cons, handSum_cons]
      have := ih k c h
      omega

theorem sum_map_set_nat {α : Type} (f : α → Nat) :
    ∀ (l : List α) (i : Nat) (p q : α), l[i]? = some p →
      ((l.set i q).map f).sum + f p = (l.map f).sum + f q := by
  intro l
  induction l with
  | nil => intro i p q h; simp at h
  | cons x xs ih =>
    intro i p q h
    cases i with
    | zero =>
      simp at h
      subst h
      simp [List.set]
      omega
    | succ i =>
      rw [List.getElem?_cons_succ] at h
      simp only [List.set, List.map_cons, List.sum_cons]
      have := ih i p q h
      omega

theorem sum_map_set_int {α : Type} (f : α → Int) :
    ∀ (l : List α) (i : Nat) (p q : α), l[i]? = some p →
      ((l.set i q).map f).sum + f p = (l.map f).sum + f q := by
  intro l
  induction l with
  | nil => intro i p q h; simp at h
  | cons x xs ih =>
    intro i p q h
    cases i with
    | zero =>
      simp at h
      subst h
      simp [List.set]
      omega
    | succ i =>
      rw [List.getElem?_cons_succ] at h
      simp only [List.set, List.map_cons, List.sum_cons]
      have := ih i p q h
      omega

theorem sum_map_eraseIdx_int {α : Type} (f : α → Int) :
    ∀ (l : List α) (i : Nat) (p : α), l[i]? = some p →
      (l.map f).sum = f p + ((l.eraseIdx i).map f).sum := by
  intro l
  induction l with
  | nil => intro i p h; simp at h
  | cons x xs ih =>
    intro i p h
    cases i with
    | zero =>
      simp at h
      subst h
      simp [List.eraseIdx_cons_zero]
    | succ i =>
      rw [List.getElem?_cons_succ] at h
      rw [List.eraseIdx_cons_succ]
      simp only [List.map_cons, List.sum_cons]
      have := ih i p h
      omega

theorem pyIdx_lt {n : Nat} {i : Int} {k : Nat} (h : pyIdx n i = some k) :
    k < n := by
  simp only [pyIdx] at h
  by_cases hneg : i < 0
  · rw [if_pos hneg] at h
    split at h
    next hc => injection h with hk; omega
    next => cases h
  · rw [if_neg hneg] at h
    split at h
    next hc => injection h with hk; omega
    next => cases h

theorem get_of_lt {α : Type} {l : List α} {k : Nat} (h : k < l.length) :
    ∃ p, l[k]? = some p := by
  exact ⟨l[k], List.getElem?_eq_getElem h⟩

theorem lastSlice_nil : lastSlice [] = [] := rfl

theorem lastSlice_of_ne {l : List Card} (h : l ≠ []) :
    ∃ c, l.getLast? = some c ∧ lastSlice l = [c] := by
  rcases Option.isSome_iff_exists.mp (List.getLast?_isSome.mpr h) with ⟨c, hc⟩
  exact ⟨c, hc, by simp [lastSlice, hc]⟩

theorem lastSlice_length_le (l : List Card) :
    (lastSlice l).length ≤ max 1 l.length := by
  unfold lastSlice
  split <;> simp

theorem drawOneCard_ok {shuf : List Card → List Card} {dp disc : List Card}
    {hand : Hand} {dp2 disc2 : List Card} {h2 : Hand}
    (h : drawOneCard shuf dp disc hand = .ok (dp2, disc2, h2)) :
    ∃ c, h2 = hand.append c ∧
      ((dp = c :: dp2 ∧ disc2 = disc) ∨
       (dp = [] ∧ (shuf disc.dropLast).map resetWild = c :: dp2 ∧
        disc2 = lastSlice disc)) := by
  unfold drawOneCard at h
  cases dp with
  | nil =>
    simp only [List.isEmpty_nil, if_pos] at h
    split at h
    next => cases h
    next c rest heq =>
      refine ⟨c, ?_, Or.inr ⟨rfl, ?_, ?_⟩⟩ <;>
        first
          | (injection h with h'; injection h' with ha hb; injection hb with hb1 hb2;
             exact hb2.symm)
          | skip
      · injection h with h'
        injection h' with ha hb
        subst ha
        exact heq
      · injection h with h'
        injection h' with ha hb
        injection hb with hb1 hb2
        exact hb1.symm
  | cons c rest =>
    simp only [List.isEmpty_cons, Bool.false_eq_true, if_neg] at h
    injection h with h'
    injection h' with ha hb
    injection hb with hb1 hb2
    exact ⟨c, hb2.symm, Or.inl ⟨by rw [ha], hb1.symm⟩⟩

theorem drawOneCard_count {shuf : List Card → List Card}
    (hlen : ∀ l : List Card, (shuf l).length = l.length)
    {dp disc : List Card} {hand : Hand} {dp2 disc2 : List Card} {h2 : Hand}
    (h : drawOneCard shuf dp disc hand = .ok (dp2, disc2, h2)) :
    dp2.length + disc2.length + 1 = dp.length + disc.length ∧
    h2.data.length = hand.data.length + 1 := by
  rcases drawOneCard_ok h with ⟨c, hh, hcase⟩
  have hlen2 : h2.data.length = hand.data.length + 1 := by
    rw [hh]; simp [Hand.append]
  refine ⟨?_, hlen2⟩
  rcases hcase with ⟨hdp, hdisc⟩ | ⟨hdp, hmap, hdisc⟩
  · subst hdisc; rw [hdp]; simp; omega
  · subst hdp
    have hm : disc.dropLast.length = dp2.length + 1 := by
      have := congrArg List.length hmap
      simp [hlen] at this
      simpa using this
    have hne : disc ≠ [] := by
      intro hnil
      rw [hnil] at hm
      simp at hm
    rcases lastSlice_of_ne hne with ⟨cN, _, hls⟩
    rw [hdisc, hls]
    have := List.length_dropLast disc
    have hdn : disc.length ≠ 0 := by
      intro h0
      exact hne (List.length_eq_zero.mp h0)
    simp only [List.length_cons, List.length_nil]
    omega

theorem draw_card_ok {shuf : List Card → List Card} :
    ∀ {n : Nat} {dp disc : List Card} {hand : Hand} {dp2 disc2 : List Card}
      {h2 : Hand},
      draw_card shuf n dp disc hand = .ok (dp2, disc2, h2) →
      ∃ l : List Card, l.length = n ∧ h2.data = hand.data ++ l := by
  intro n
  induction n with
  | zero =>
    intro dp disc hand dp2 disc2 h2 h
    unfold draw_card at h
    injection h with h'
    injection h' with h1 hb
    injection hb with h2' h3
    subst h3
    exact ⟨[], rfl, by simp⟩
  | succ n ih =>
    intro dp disc hand dp2 disc2 h2 h
    unfold draw_card at h
    split at h
    next => cases h
    next dpm discm hm heq =>
      rcases drawOneCard_ok heq with ⟨c, hh, _⟩
      rcases ih h with ⟨l, hl, hdata⟩
      refine ⟨c :: l, by simp [hl], ?_⟩
      rw [hdata, hh]
      simp [Hand.append]

theorem draw_card_count {shuf : List Card → List Card}
    (hlen : ∀ l : List Card, (shuf l).length = l.length) :
    ∀ {n : Nat} {dp disc : List Card} {hand : Hand} {dp2 disc2 : List Card}
      {h2 : Hand},
      draw_card shuf n dp disc hand = .ok (dp2, disc2, h2) →
      dp2.length + disc2.length + h2.data.length =
        dp.length + disc.length + hand.data.length := by
  intro n
  induction n with
  | zero =>
    intro dp disc hand dp2 disc2 h2 h
    unfold draw_card at h
    injection h with h'
    injection h' with h1 hb
    injection hb with h2' h3
    subst h1; subst h2'; subst h3
    rfl
  | succ n ih =>
    intro dp disc hand dp2 disc2 h2 h
    unfold draw_card at h
    split at h
    next => cases h
    next dpm discm hm heq =>
      have hc := drawOneCard_count hlen heq
      have := ih h
      omega

theorem draw_card_handInv {shuf : List Card → List Card} :
    ∀ {n : Nat} {dp disc : List Card} {hand : Hand} {dp2 disc2 : List Card}
      {h2 : Hand},
      draw_card shuf n dp disc hand = .ok (dp2, disc2, h2) →
      HandInv hand → HandInv h2 := by
  intro n
  induction n with
  | zero =>
    intro dp disc hand dp2 disc2 h2 h hi
    unfold draw_card at h
    injection h with h'
    injection h' with h1 hb
    injection hb with h2' h3
    subst h3
    exact hi
  | succ n ih =>
    intro dp disc hand dp2 disc2 h2 h hi
    unfold draw_card at h
    split at h
    next => cases h
    next dpm discm hm heq =>
      rcases drawOneCard_ok heq with ⟨c, hh, _⟩
      exact ih h (hh ▸ handInv_append hand c hi)

theorem dealerDraw_eq {shuf : List Card → List Card} {st : Dealer} {i n : Nat}
    {st2 : Dealer} (h : dealerDraw shuf st i n = .ok st2) :
    ∃ p dp disc hnew, st.players[i]? = some p ∧
      draw_card shuf n st.draw_pile st.discard_pile p.cards =
        .ok (dp, disc, hnew) ∧
      st2.players = st.players.set i { p with cards := hnew } ∧
      st2.draw_pile = dp ∧ st2.discard_pile = disc ∧
      st2.turn_direction = st.turn_direction ∧
      st2.round_start_index = st.round_start_index ∧
      st2.current_player_index = st.current_player_index ∧
      st2.current_round = st.current_round ∧
      st2.current_move = st.current_move ∧
      st2.has_winner = st.has_winner := by
  unfold dealerDraw at h
  split at h
  next => cases h
  next p hp =>
    split at h
    next => cases h
    next dp disc hnew heq =>
      injection h with h'
      refine ⟨p, dp, disc, hnew, hp, heq, ?_⟩
      subst h'
      simp [setHand, hp]

theorem dealerDraw_total {shuf : List Card → List Card}
    (hlen : ∀ l : List Card, (shuf l).length = l.length) {st : Dealer}
    {i n : Nat} {st2 : Dealer} (h : dealerDraw shuf st i n = .ok st2) :
    totalCards st2 = totalCards st := by
  rcases dealerDraw_eq h with
    ⟨p, dp, disc, hnew, hp, heq, hps, hdp, hdisc, -⟩
  have hcnt := draw_card_count hlen heq
  have hsum := sum_map_set_nat (fun q => q.cards.data.length) st.players i p
    { p with cards := hnew } hp
  unfold totalCards
  rw [hps, hdp, hdisc]
  simp only at hsum
  omega

theorem dealerDraw_handOf {shuf : List Card → List Card} {st : Dealer}
    {i n : Nat} {st2 : Dealer} (h : dealerDraw shuf st i n = .ok st2) :
    ∃ l : List Card, l.length = n ∧
      (handOf st2 i).data = (handOf st i).data ++ l := by
  rcases dealerDraw_eq h with ⟨p, dp, disc, hnew, hp, heq, hps, -⟩
  rcases draw_card_ok heq with ⟨l, hl, hdata⟩
  refine ⟨l, hl, ?_⟩
  have hi : i < st.players.length := by
    rcases List.getElem?_eq_some_iff.mp hp with ⟨hlt, -⟩
    exact hlt
  rw [handOf, hps, List.getElem?_set_self (by simpa using hi), handOf, hp]
  exact hdata

theorem dealerDraw_other {shuf : List Card → List Card} {st : Dealer}
    {i n : Nat} {st2 : Dealer} (h : dealerDraw shuf st i n = .ok st2)
    {j : Nat} (hj : j ≠ i) : st2.players[j]? = st.players[j]? := by
  rcases dealerDraw_eq h with ⟨p, dp, disc, hnew, hp, heq, hps, -⟩
  rw [hps, List.getElem?_set_ne (fun he => hj he.symm)]

theorem dealerDraw_handInv {shuf : List Card → List Card} {st : Dealer}
    {i n : Nat} {st2 : Dealer} (h : dealerDraw shuf st i n = .ok st2)
    (hinv : ∀ p ∈ st.players, HandInv p.cards) :
    ∀ p ∈ st2.players, HandInv p.cards := by
  rcases dealerDraw_eq h with ⟨p, dp, disc, hnew, hp, heq, hps, -⟩
  intro q hq
  rw [hps] at hq
  rcases List.mem_or_eq_of_mem_set hq with hmem | hqe
  · exact hinv q hmem
  · subst hqe
    exact draw_card_handInv heq
      (hinv p (List.getElem?_mem hp))

theorem place_card_eq {st : Dealer} {i : Nat} {p : Player}
    (hp : st.players[i]? = some p) (c : Card) (h : Hand) :
    (place_card st i c h).1.players = st.players.set i { p with cards := h } ∧
    (place_card st i c h).1.draw_pile = st.draw_pile ∧
    (place_card st i c h).1.discard_pile = st.discard_pile ++ [c] ∧
    (place_card st i c h).1.turn_direction =
      (if c.card_type = CardType.REV then -st.turn_direction
       else st.turn_direction) ∧
    (place_card st i c h).1.round_start_index = st.round_start_index ∧
    (place_card st i c h).1.current_player_index = st.current_player_index ∧
    (place_card st i c h).1.current_round = st.current_round ∧
    (place_card st i c h).1.current_move = st.current_move ∧
    (place_card st i c h).1.has_winner = st.has_winner ∧
    (place_card st i c h).2 =
      (if c.card_type = CardType.REV then false
       else decide (c.card_type = CardType.SKIP ∨
         c.card_type = CardType.DRAW2 ∨ c.card_type = CardType.WILD4)) := by
  unfold place_card setHand
  rw [hp]
  by_cases hrev : c.card_type = CardType.REV
  · simp [hrev]
  · simp [hrev]

/-- Exhaustive characterization of a successful `play_move`: exactly the
branch structure of `Dealer.play_move`. -/
theorem play_move_cases {shuf : List Card → List Card}
    {playFn : Hand → Card → Option (Card × Hand)} {st : Dealer} {i : Nat}
    {pac : Bool} {st2 : Dealer} {b : Bool} {a : Card}
    (htop : top_card st = .ok a)
    (hmove : play_move shuf playFn st i pac = .ok (st2, b)) :
    (a.card_type = CardType.SKIP ∧ pac = true ∧ st2 = st ∧ b = false) ∨
    (a.card_type = CardType.DRAW2 ∧ pac = true ∧
      dealerDraw shuf st i 2 = .ok st2 ∧ b = false) ∨
    (a.card_type = CardType.WILD4 ∧ pac = true ∧
      dealerDraw shuf st i 4 = .ok st2 ∧ b = false) ∨
    (¬(a.card_type = CardType.SKIP ∧ pac = true) ∧
     ¬(a.card_type = CardType.DRAW2 ∧ pac = true) ∧
     ¬(a.card_type = CardType.WILD4 ∧ pac = true) ∧
     ∃ p, st.players[i]? = some p ∧
       ((∃ c h, playFn p.cards a = some (c, h) ∧
          (st2, b) = place_card st i c h) ∨
        (playFn p.cards a = none ∧
         ∃ stm, dealerDraw shuf st i 1 = .ok stm ∧
           ∃ p2, stm.players[i]? = some p2 ∧
             ((playFn p2.cards a = none ∧ st2 = stm ∧ b = false) ∨
              (∃ c h, playFn p2.cards a = some (c, h) ∧
                (st2, b) = place_card stm i c h))))) := by
  unfold play_move at hmove
  rw [htop] at hmove
  simp only at hmove
  by_cases h1 : a.card_type = CardType.SKIP ∧ pac = true
  · rw [if_pos h1] at hmove
    injection hmove with h'
    injection h' with ha hb
    exact Or.inl ⟨h1.1, h1.2, ha.symm, hb.symm⟩
  · rw [if_neg h1] at hmove
    by_cases h2 : a.card_type = CardType.DRAW2 ∧ pac = true
    · rw [if_pos h2] at hmove
      split at hmove
      next => cases hmove
      next stm heq =>
        injection hmove with h'
        injection h' with ha hb
        exact Or.inr (Or.inl ⟨h2.1, h2.2, ha ▸ heq, hb.symm⟩)
    · rw [if_neg h2] at hmove
      by_cases h3 : a.card_type = CardType.WILD4 ∧ pac = true
      · rw [if_pos h3] at hmove
        split at hmove
        next => cases hmove
        next stm heq =>
          injection hmove with h'
          injection h' with ha hb
          exact Or.inr (Or.inr (Or.inl ⟨h3.1, h3.2, ha ▸ heq, hb.symm⟩))
      · rw [if_neg h3] at hmove
        refine Or.inr (Or.inr (Or.inr ⟨h1, h2, h3, ?_⟩))
        split at hmove
        next => cases hmove
        next p hp =>
          refine ⟨p, hp, ?_⟩
          split at hmove
          next c h hplay =>
            injection hmove with h'
            exact Or.inl ⟨c, h, hplay, h'.symm⟩
          next hplay =>
            split at hmove
            next => cases hmove
            next stm heqd =>
              refine Or.inr ⟨hplay, stm, heqd, ?_⟩
              split at hmove
              next => cases hmove
              next p2 hp2 =>
                refine ⟨p2, hp2, ?_⟩
                split at hmove
                next hplay2 =>
                  injection hmove with h'
                  injection h' with ha hb
                  exact Or.inl ⟨hplay2, ha.symm, hb.symm⟩
                next c h hplay2 =>
                  injection hmove with h'
                  exact Or.inr ⟨c, h, hplay2, h'.symm⟩

theorem play_move_top {shuf : List Card → List Card}
    {playFn : Hand → Card → Option (Card × Hand)} {st : Dealer} {i : Nat}
    {pac : Bool} {r : Dealer × Bool}
    (hmove : play_move shuf playFn st i pac = .ok r) :
    ∃ a, top_card st = .ok a := by
  unfold play_move at hmove
  split at hmove
  next => cases hmove
  next a heq => exact ⟨a, heq⟩

theorem place_card_total {st : Dealer} {i : Nat} {p : Player}
    (hp : st.players[i]? = some p) {c : Card} {h : Hand}
    (hcount : h.data.length + 1 = p.cards.data.length) :
    totalCards (place_card st i c h).1 = totalCards st := by
  rcases place_card_eq hp c h with ⟨hps, hdp, hdisc, -⟩
  have hsum := sum_map_set_nat (fun q => q.cards.data.length) st.players i p
    { p with cards := h } hp
  unfold totalCards
  rw [hps, hdp, hdisc]
  simp only at hsum
  simp only [List.length_append, List.length_cons, List.length_nil]
  omega

theorem play_move_total {shuf : List Card → List Card}
    {playFn : Hand → Card → Option (Card × Hand)}
    (hlen : ∀ l : List Card, (shuf l).length = l.length)
    (hpc : PlayCount playFn) {st : Dealer} {i : Nat} {pac : Bool}
    {st2 : Dealer} {b : Bool}
    (hmove : play_move shuf playFn st i pac = .ok (st2, b)) :
    totalCards st2 = totalCards st := by
  rcases play_move_top hmove with ⟨a, htop⟩
  rcases play_move_cases htop hmove with
    ⟨-, -, hst, -⟩ | ⟨-, -, hdr, -⟩ | ⟨-, -, hdr, -⟩ |
    ⟨-, -, -, p, hp, hrest⟩
  · rw [hst]
  · exact dealerDraw_total hlen hdr
  · exact dealerDraw_total hlen hdr
  · rcases hrest with ⟨c, h, hplay, hpl⟩ | ⟨-, stm, hdr, p2, hp2, hrest2⟩
    · have : st2 = (place_card st i c h).1 := by
        rw [← hpl]
      rw [this]
      exact place_card_total hp (hpc _ _ _ _ hplay)
    · have htot : totalCards stm = totalCards st := dealerDraw_total hlen hdr
      rcases hrest2 with ⟨-, hst, -⟩ | ⟨c, h, hplay2, hpl⟩
      · rw [hst]; exact htot
      · have : st2 = (place_card stm i c h).1 := by
          rw [← hpl]
        rw [this, place_card_total hp2 (hpc _ _ _ _ hplay2)]
        exact htot

theorem play_move_frame {shuf : List Card → List Card}
    {playFn : Hand → Card → Option (Card × Hand)} {st : Dealer} {i : Nat}
    {pac : Bool} {st2 : Dealer} {b : Bool}
    (hmove : play_move shuf playFn st i pac = .ok (st2, b)) :
    st2.players.length = st.players.length ∧
    st2.current_player_index = st.current_player_index ∧
    st2.round_start_index = st.round_start_index ∧
    st2.current_round = st.current_round ∧
    st2.current_move = st.current_move ∧
    st2.has_winner = st.has_winner := by
  rcases play_move_top hmove with ⟨a, htop⟩
  rcases play_move_cases htop hmove with
    ⟨-, -, hst, -⟩ | ⟨-, -, hdr, -⟩ | ⟨-, -, hdr, -⟩ |
    ⟨-, -, -, p, hp, hrest⟩
  · rw [hst]
    exact ⟨rfl, rfl, rfl, rfl, rfl, rfl⟩
  · rcases dealerDraw_eq hdr with ⟨q, dp, disc, hnew, -, -, hps, -, -, -, hrsi,
      hcpi, hcr, hcm, hw⟩
    exact ⟨by rw [hps, List.length_set], hcpi, hrsi, hcr, hcm, hw⟩
  · rcases dealerDraw_eq hdr with ⟨q, dp, disc, hnew, -, -, hps, -, -, -, hrsi,
      hcpi, hcr, hcm, hw⟩
    exact ⟨by rw [hps, List.length_set], hcpi, hrsi, hcr, hcm, hw⟩
  · rcases hrest with ⟨c, h, hplay, hpl⟩ | ⟨-, stm, hdr, p2, hp2, hrest2⟩
    · have hst2 : st2 = (place_card st i c h).1 := by rw [← hpl]
      rcases place_card_eq hp c h with ⟨hps, -, -, -, hrsi, hcpi, hcr, hcm, hw, -⟩
      rw [hst2]
      exact ⟨by rw [hps, List.length_set], hcpi, hrsi, hcr, hcm, hw⟩
    · rcases dealerDraw_eq hdr with ⟨q, dp, disc, hnew, -, -, hpsm, -, -, -,
        hrsim, hcpim, hcrm, hcmm, hwm⟩
      have hlm : stm.players.length = st.players.length := by
        rw [hpsm, List.length_set]
      rcases hrest2 with ⟨-, hst, -⟩ | ⟨c, h, hplay2, hpl⟩
      · rw [hst]
        exact ⟨hlm, hcpim, hrsim, hcrm, hcmm, hwm⟩
      · have hst2 : st2 = (place_card stm i c h).1 := by rw [← hpl]
        rcases place_card_eq hp2 c h with ⟨hps, -, -, -, hrsi, hcpi, hcr, hcm,
          hw, -⟩
        rw [hst2]
        refine ⟨by rw [hps, List.length_set, hlm], ?_, ?_, ?_, ?_, ?_⟩
        · rw [hcpi, hcpim]
        · rw [hrsi, hrsim]
        · rw [hcr, hcrm]
        · rw [hcm, hcmm]
        · rw [hw, hwm]

theorem play_move_handInv {shuf : List Card → List Card}
    {playFn : Hand → Card → Option (Card × Hand)} (hpp : PlayPoints playFn)
    {st : Dealer} {i : Nat} {pac : Bool} {st2 : Dealer} {b : Bool}
    (hmove : play_move shuf playFn st i pac = .ok (st2, b))
    (hinv : ∀ p ∈ st.players, HandInv p.cards) :
    ∀ p ∈ st2.players, HandInv p.cards := by
  rcases play_move_top hmove with ⟨a, htop⟩
  rcases play_move_cases htop hmove with
    ⟨-, -, hst, -⟩ | ⟨-, -, hdr, -⟩ | ⟨-, -, hdr, -⟩ |
    ⟨-, -, -, p, hp, hrest⟩
  · rw [hst]; exact hinv
  · exact dealerDraw_handInv hdr hinv
  · exact dealerDraw_handInv hdr hinv
  · rcases hrest with ⟨c, h, hplay, hpl⟩ | ⟨-, stm, hdr, p2, hp2, hrest2⟩
    · have hst2 : st2 = (place_card st i c h).1 := by rw [← hpl]
      rcases place_card_eq hp c h with ⟨hps, -⟩
      rw [hst2, hps]
      intro q hq
      rcases List.mem_or_eq_of_mem_set hq with hmem | hqe
      · exact hinv q hmem
      · subst hqe
        exact hpp _ _ _ _ hplay (hinv p (List.getElem?_mem hp))
    · have hinvm : ∀ p ∈ stm.players, HandInv p.cards :=
        dealerDraw_handInv hdr hinv
      rcases hrest2 with ⟨-, hst, -⟩ | ⟨c, h, hplay2, hpl⟩
      · rw [hst]; exact hinvm
      · have hst2 : st2 = (place_card stm i c h).1 := by rw [← hpl]
        rcases place_card_eq hp2 c h with ⟨hps, -⟩
        rw [hst2, hps]
        intro q hq
        rcases List.mem_or_eq_of_mem_set hq with hmem | hqe
        · exact hinvm q hmem
        · subst hqe
          exact hpp _ _ _ _ hplay2 (hinvm p2 (List.getElem?_mem hp2))

theorem dealPass_count :
    ∀ (ps : List Player) (dp : List Card) {dp2 : List Card}
      {ps2 : List Player}, dealPass dp ps = some (dp2, ps2) →
      dp2.length + (ps2.map (fun p => p.cards.data.length)).sum =
        dp.length + (ps.map (fun p => p.cards.data.length)).sum := by
  intro ps
  induction ps with
  | nil =>
    intro dp dp2 ps2 h
    cases dp with
    | nil =>
      simp only [dealPass] at h
      injection h with h'
      injection h' with h1 h2
      subst h1; subst h2
      simp
    | cons c dp =>
      simp only [dealPass] at h
      injection h with h'
      injection h' with h1 h2
      subst h1; subst h2
      simp
  | cons p ps ih =>
    intro dp dp2 ps2 h
    cases dp with
    | nil => cases h
    | cons c dp =>
      unfold dealPass at h
      split at h
      next => cases h
      next dpr psr heq =>
        injection h with h'
        injection h' with h1 h2
        subst h1; subst h2
        have := ih dp heq
        simp only [List.map_cons, List.sum_cons, List.length_cons]
        simp only [Hand.append, List.length_append, List.length_cons,
          List.length_nil]
        omega

theorem dealRounds_count :
    ∀ (k : Nat) (dp : List Card) (ps : List Player) {dp2 : List Card}
      {ps2 : List Player}, dealRounds k dp ps = some (dp2, ps2) →
      dp2.length + (ps2.map (fun p => p.cards.data.length)).sum =
        dp.length + (ps.map (fun p => p.cards.data.length)).sum := by
  intro k
  induction k with
  | zero =>
    intro dp ps dp2 ps2 h
    unfold dealRounds at h
    injection h with h'
    injection h' with h1 h2
    subst h1; subst h2
    rfl
  | succ k ih =>
    intro dp ps dp2 ps2 h
    unfold dealRounds at h
    split at h
    next => cases h
    next dpr psr heq =>
      have h1 := dealPass_count ps dp heq
      have h2 := ih dpr psr h
      omega

theorem burn_count :
    ∀ (dp disc : List Card) {dp2 disc2 : List Card},
      burn dp disc = some (dp2, disc2) →
      dp2.length + disc2.length = dp.length + disc.length := by
  intro dp
  induction dp with
  | nil => intro disc dp2 disc2 h; cases h
  | cons c dp ih =>
    intro disc dp2 disc2 h
    unfold burn at h
    split at h
    next =>
      have := ih (disc ++ [c]) h
      simp only [List.length_append, List.length_cons, List.length_nil] at this
      simp only [List.length_cons]
      omega
    next =>
      injection h with h'
      injection h' with h1 h2
      subst h1; subst h2
      simp only [List.length_append, List.length_cons, List.length_nil]
      omega

theorem init_round_eq {shuf : List Card → List Card} {st st2 : Dealer}
    (h : init_round shuf st = .ok st2) :
    ∃ dp2 ps dp3 disc,
      dealRounds 7 (shuf st.draw_pile) st.players = some (dp2, ps) ∧
      burn dp2 [] = some (dp3, disc) ∧
      st2.players = ps ∧ st2.draw_pile = dp3 ∧ st2.discard_pile = disc ∧
      st2.turn_direction = st.turn_direction ∧
      st2.has_winner = st.has_winner ∧
      st2.current_round = st.current_round + 1 ∧
      st2.current_move = 1 ∧
      st2.current_player_index = st2.round_start_index := by
  simp only [init_round] at h
  split at h
  next => exact Except.noConfusion h
  next dp2 ps hdr =>
    split at h
    next => exact Except.noConfusion h
    next dp3 disc hbn =>
      injection h with h'
      subst h'
      exact ⟨dp2, ps, dp3, disc, hdr, hbn, rfl, rfl, rfl, rfl, rfl, rfl, rfl,
        rfl⟩

theorem init_round_total {shuf : List Card → List Card}
    (hlen : ∀ l : List Card, (shuf l).length = l.length) {st st2 : Dealer}
    (hdisc : st.discard_pile = []) (h : init_round shuf st = .ok st2) :
    totalCards st2 = totalCards st := by
  rcases init_round_eq h with
    ⟨dp2, ps, dp3, disc, heq, heqb, hps, hdp, hdc, -⟩
  have h1 := dealRounds_count 7 (shuf st.draw_pile) st.players heq
  have h2 := burn_count dp2 [] heqb
  unfold totalCards
  rw [hps, hdp, hdc, hdisc]
  rw [hlen] at h1
  simp only [List.length_nil] at h2 ⊢
  omega

theorem loop_iteration_end {shuf : List Card → List Card}
    {playFn : Hand → Card → Option (Card × Hand)} {st : Dealer} {pac : Bool}
    {i : Nat} {st2 : Dealer} {pac2 : Bool}
    (hi : pyIdx st.players.length st.current_player_index = some i)
    (hmove : play_move shuf playFn (bump st) i pac = .ok (st2, pac2))
    (hzero : (handOf st2 i).data.length = 0) :
    loop_iteration shuf playFn st pac = .ok (.inl st2) := by
  have hlen : st2.players.length = st.players.length := by
    rcases play_move_frame hmove with ⟨h1, -⟩
    simpa [bump] using h1
  rcases @get_of_lt Player st2.players i (by rw [hlen]; exact pyIdx_lt hi)
    with ⟨p, hp⟩
  have hpz : p.cards.data.length = 0 := by
    have : handOf st2 i = p.cards := by rw [handOf, hp]
    rw [← this]
    exact hzero
  unfold loop_iteration bump
  unfold bump at hmove
  simp only
  rw [hi]
  simp only
  rw [hmove]
  simp only
  rw [hp]
  simp only [hpz, if_pos]

theorem loop_iteration_continue {shuf : List Card → List Card}
    {playFn : Hand → Card → Option (Card × Hand)} {st : Dealer} {pac : Bool}
    {i : Nat} {st2 : Dealer} {pac2 : Bool}
    (hi : pyIdx st.players.length st.current_player_index = some i)
    (hmove : play_move shuf playFn (bump st) i pac = .ok (st2, pac2))
    (hpos : (handOf st2 i).data.length ≠ 0) :
    loop_iteration shuf playFn st pac = .ok (.inr
      ({ st2 with current_player_index :=
        (st2.current_player_index + st2.turn_direction) %
          (st2.players.length : Int) }, pac2)) := by
  have hlen : st2.players.length = st.players.length := by
    rcases play_move_frame hmove with ⟨h1, -⟩
    simpa [bump] using h1
  rcases @get_of_lt Player st2.players i (by rw [hlen]; exact pyIdx_lt hi)
    with ⟨p, hp⟩
  have hpz : ¬p.cards.data.length = 0 := by
    have : handOf st2 i = p.cards := by rw [handOf, hp]
    rw [← this]
    exact hpos
  unfold loop_iteration bump
  unfold bump at hmove
  simp only
  rw [hi]
  simp only
  rw [hmove]
  simp only
  rw [hp]
  simp [hpz]

theorem sum_points_eq_sum_handSum {ps : List Player}
    (hinv : ∀ p ∈ ps, HandInv p.cards) :
    (ps.map (fun p => p.cards.points)).sum =
      (ps.map (fun p => handSum p.cards.data)).sum := by
  induction ps with
  | nil => rfl
  | cons p ps ih =>
    simp only [List.map_cons, List.sum_cons]
    rw [hinv p (by simp), ih (fun q hq => hinv q (by simp [hq]))]

theorem finish_round_spec {st : Dealer} {w : Nat} {winner : Player}
    (hw : pyIdx st.players.length st.current_player_index = some w)
    (hwin : st.players[w]? = some winner) :
    ∃ st2, finish_round st = .ok st2 ∧
      st2.has_winner = (if Constants.MAX_POINTS ≤
        winner.points + roundPointsCached st then true else st.has_winner) ∧
      st2.players[w]? = some
        { player_id := winner.player_id,
          cards := Hand.empty,
          points := winner.points + roundPointsCached st } ∧
      (∀ j, j ≠ w → ∀ q, st.players[j]? = some q →
        st2.players[j]? = some
          { player_id := q.player_id,
            cards := Hand.empty,
            points := q.points }) := by
  have hwl : w < st.players.length := pyIdx_lt hw
  refine ⟨collect_cards (if Constants.MAX_POINTS ≤
      winner.points + roundPointsCached st
    then { st with
      players := st.players.set w
        { winner with points := winner.points + roundPointsCached st }
      has_winner := true }
    else { st with
      players := st.players.set w
        { winner with points := winner.points + roundPointsCached st } }),
    ?_, ?_, ?_, ?_⟩
  · unfold finish_round
    rw [hw]
    simp only
    rw [hwin]
  · by_cases hc : Constants.MAX_POINTS ≤ winner.points + roundPointsCached st
    · rw [if_pos hc, if_pos hc]
      rfl
    · rw [if_neg hc, if_neg hc]
      rfl
  · by_cases hc : Constants.MAX_POINTS ≤ winner.points + roundPointsCached st
    · rw [if_pos hc]
      unfold collect_cards
      simp only [List.getElem?_map,
        List.getElem?_set_self (by simpa using hwl)]
      rfl
    · rw [if_neg hc]
      unfold collect_cards
      simp only [List.getElem?_map,
        List.getElem?_set_self (by simpa using hwl)]
      rfl
  · intro j hj q hq
    by_cases hc : Constants.MAX_POINTS ≤ winner.points + roundPointsCached st
    · rw [if_pos hc]
      unfold collect_cards
      simp only [List.getElem?_map,
        List.getElem?_set_ne (fun he => hj he.symm)]
      rw [hq]
      rfl
    · rw [if_neg hc]
      unfold collect_cards
      simp only [List.getElem?_map,
        List.getElem?_set_ne (fun he => hj he.symm)]
      rw [hq]
      rfl

theorem hand_popAt_spec {h : Hand} {j : Int} {c : Card} {h2 : Hand}
    (hp : h.popAt j = some (c, h2)) :
    ∃ k : Nat, h.data[k]? = some c ∧ h2.data = h.data.eraseIdx k ∧
      h2.points = h.points - c.value := by
  unfold Hand.popAt at hp
  split at hp
  next hb =>
    split at hp
    next c' heq =>
      injection hp with h'
      injection h' with h1 h2'
      subst h1
      subst h2'
      exact ⟨_, heq, rfl, rfl⟩
    next => cases hp
  next => cases hp

theorem hand_pop_spec {h : Hand} {i : Int} {c : Card} {h2 : Hand}
    (hp : h.pop i = some (c, h2)) :
    ∃ k : Nat, h.data[k]? = some c ∧ h2.data = h.data.eraseIdx k ∧
      h2.points = h.points - c.value := by
  unfold Hand.pop at hp
  split at hp
  next => cases hp
  next => exact hand_popAt_spec hp

theorem popFront_count : PlayCount popFront := by
  intro h a c h2 hp
  unfold popFront at hp
  split at hp
  next => cases hp
  next c' rest heq =>
    injection hp with h'
    injection h' with h1 h2'
    subst h2'
    simp [heq]

theorem popFront_points : PlayPoints popFront := by
  intro h a c h2 hp hi
  unfold popFront at hp
  split at hp
  next => cases hp
  next c' rest heq =>
    injection hp with h'
    injection h' with h1 h2'
    subst h1
    subst h2'
    unfold HandInv at hi ⊢
    simp only
    rw [hi, heq, handSum_cons]
    omega

theorem place_card_handOf {st : Dealer} {i : Nat} {p : Player}
    (hp : st.players[i]? = some p) (c : Card) (h : Hand) :
    handOf (place_card st i c h).1 i = h := by
  rcases place_card_eq hp c h with ⟨hps, -⟩
  have hlt : i < st.players.length := by
    rcases List.getElem?_eq_some_iff.mp hp with ⟨hlt, -⟩
    exact hlt
  rw [handOf, hps, List.getElem?_set_self (by simpa using hlt)]

theorem collect_cards_total (st : Dealer) :
    totalCards (collect_cards st) = totalCards st := by
  have h0 : (List.map ((fun p => p.cards.data.length) ∘
      fun p => { p with cards := Hand.empty }) st.players).sum = 0 := by
    induction st.players with
    | nil => rfl
    | cons p ps ih => simpa [Hand.empty] using ih
  have h1 : (List.map (List.length ∘ fun (p : Player) => p.cards.data)
      st.players).sum =
      (List.map (fun (p : Player) => p.cards.data.length) st.players).sum := rfl
  unfold totalCards collect_cards
  simp only [List.length_map, List.length_append, List.length_flatten,
    List.map_map, List.length_nil, h0, h1]
  omega

theorem applyOps_inv :
    ∀ (ops : List HandOp) (h h2 : Hand), HandInv h →
      applyOps ops h = some h2 → HandInv h2 := by
  intro ops
  induction ops with
  | nil =>
    intro h h2 hi hap
    unfold applyOps at hap
    injection hap with h'
    subst h'
    exact hi
  | cons op ops ih =>
    intro h h2 hi hap
    unfold applyOps at hap
    split at hap
    next => cases hap
    next hm heq =>
      refine ih hm h2 ?_ hap
      cases op with
      | app c =>
        simp only [applyOp] at heq
        injection heq with h'
        subst h'
        exact handInv_append h c hi
      | pop i =>
        simp only [applyOp] at heq
        rcases ho : h.pop i with - | ⟨c, hr⟩
        · rw [ho] at heq; cases heq
        · rw [ho] at heq
          injection heq with h'
          subst h'
          rcases hand_pop_spec ho with ⟨k, hk, hdata, hpts⟩
          unfold HandInv at hi ⊢
          simp only
          rw [hpts, hdata, hi]
          have := handSum_eraseIdx h.data k c hk
          omega

-- The claims.

/-- C2 counterexample: the claim asserts `init_deck()` yields exactly 4 cards
with value 50 and 80 rank-valued cards.  The deck built by `init_deck`
actually contains 8 cards of value 50 (four WILD and four WILD4) and 76
non-action cards (whose value is their rank), so the claim is false of the
code. -/
theorem claim_C2_counterexample :
    init_deck.countP (fun c => decide (c.value = 50)) = 8 ∧
    ¬ init_deck.countP (fun c => decide (c.value = 50)) = 4 ∧
    init_deck.countP (fun c => c.is_action = false) = 76 ∧
    ¬ init_deck.countP (fun c => c.is_action = false) = 80 := by
  refine ⟨?_, ?_, ?_, ?_⟩ <;> decide

/-- C2 amended: `init_deck()` returns exactly 108 cards: exactly 8 cards
with value 50 (4 WILD and 4 WILD4), exactly 24 cards with value 20 (6 per
non-wild color), and the remaining 76 cards are non-action cards with value
equal to their numeric rank, with exactly two copies of each rank 1-9 per
non-wild color and one copy of rank 0 per non-wild color.  (As a plain Lean
list literal it is by construction a pure, deterministic value.) -/
theorem claim_C2 :
    init_deck.length = 108 ∧
    init_deck.countP (fun c => decide (c.value = 50)) = 8 ∧
    init_deck.countP (fun c => decide (c.card_type = CardType.WILD)) = 4 ∧
    init_deck.countP (fun c => decide (c.card_type = CardType.WILD4)) = 4 ∧
    init_deck.countP (fun c => decide (c.value = 20)) = 24 ∧
    (∀ col ∈ [CardColor.R, CardColor.G, CardColor.Y, CardColor.B],
      init_deck.countP (fun c => decide (c.value = 20 ∧ c.color = col)) = 6) ∧
    init_deck.countP (fun c => c.is_action = false) = 76 ∧
    (∀ c ∈ init_deck, c.is_action = false → c.value = c.card_type.rank) ∧
    (∀ col ∈ [CardColor.R, CardColor.G, CardColor.Y, CardColor.B],
      init_deck.count ⟨col, CardType.N0⟩ = 1 ∧
      ∀ t ∈ numberTypes, init_deck.count ⟨col, t⟩ = 2) := by
  refine ⟨?_, ?_, ?_, ?_, ?_, ?_, ?_, ?_, ?_⟩ <;> decide

/-- C2 witness: the red 5 is a non-action deck card whose value is its
rank. -/
theorem claim_C2_witness : cR5.value = cR5.card_type.rank :=
  claim_C2.2.2.2.2.2.2.2.1 cR5 (by decide) (by decide)

/-- C9 (confirmed): `Hand.append` increases the cached points by exactly the
appended card's value, `Hand.pop` decreases it by exactly the removed card's
value, and for any finite sequence of append/pop operations applied to a
fresh empty hand the cached `points` equals the sum of the values of the
cards currently in the hand. -/
theorem claim_C9 :
    (∀ (h : Hand) (c : Card), (h.append c).points = h.points + c.value) ∧
    (∀ (h : Hand) (i : Int) (c : Card) (h2 : Hand),
      h.pop i = some (c, h2) → h2.points = h.points - c.value) ∧
    (∀ (ops : List HandOp) (h2 : Hand),
      applyOps ops Hand.empty = some h2 → h2.points = handSum h2.data) := by
  refine ⟨fun h c => rfl, ?_, ?_⟩
  · intro h i c h2 hp
    rcases hand_pop_spec hp with ⟨k, -, -, hpts⟩
    exact hpts
  · intro ops h2 hap
    exact applyOps_inv ops Hand.empty h2 rfl hap

/-- C9 witness: a concrete sequence of three appends, a positive-index pop,
an append and two more pops (one with a negative index), run from the empty
hand. -/
theorem claim_C9_witness : hW9.points = handSum hW9.data :=
  claim_C9.2.2 opsW9 hW9 rfl

/-- C7 counterexample: with the draw pile empty and a single-card discard
pile, a draw does fail, but with the builtin `IndexError` raised by `pop(0)`
on the still-empty draw pile, not with a `DeckExhaustedError` (the
repository defines no such exception class and performs no defensive
check). -/
theorem claim_C7_counterexample :
    draw_card id 1 [] [cR5] Hand.empty = .error UnoError.indexError ∧
    (Except.error UnoError.indexError :
        Except UnoError (List Card × List Card × Hand)) ≠
      .error UnoError.deckExhaustedError := by
  refine ⟨by decide, by decide⟩

/-- C7 amended: for every draw request, if after the reshuffle step the draw
pile is still empty (the discard pile held at most the single top card and
the draw pile was already empty), the draw operation fails by raising the
builtin `IndexError` from `pop(0)` on the empty list; no `DeckExhaustedError`
exists in the code and no defensive check is performed. -/
theorem claim_C7 (shuf : List Card → List Card)
    (hsh : ∀ l : List Card, List.Perm (shuf l) l) (disc : List Card)
    (hand : Hand) (n : Nat) (hdisc : disc.length ≤ 1) :
    draw_card shuf (n + 1) [] disc hand = .error UnoError.indexError := by
  have hdl : disc.dropLast = [] := by
    cases disc with
    | nil => rfl
    | cons c rest =>
      cases rest with
      | nil => rfl
      | cons d r => simp at hdisc
  have hnil : shuf [] = [] := (hsh []).eq_nil
  have h1 : drawOneCard shuf [] disc hand = .error UnoError.indexError := by
    unfold drawOneCard
    simp only [List.isEmpty_nil, if_true, hdl, hnil, List.map_nil]
  unfold draw_card
  rw [h1]

/-- C7 witness: a three-card draw request against an empty draw pile and a
one-card discard pile raises `IndexError`. -/
theorem claim_C7_witness :
    draw_card id 3 [] [cR5] Hand.empty = .error UnoError.indexError :=
  claim_C7 id (fun l => List.Perm.refl l) [cR5] Hand.empty 2 (by decide)

/-- C8 counterexample: `top_card()` on an empty discard pile (the freshly
constructed dealer) does fail, but with the builtin `IndexError` raised by
`self.discard_pile[-1]`, not with an `EmptyPileError` (the repository
defines no such exception class). -/
theorem claim_C8_counterexample :
    top_card Dealer.init = .error UnoError.indexError ∧
    top_card Dealer.init ≠ .error UnoError.emptyPileError := by
  refine ⟨by decide, by decide⟩

/-- C8 amended: `top_card()` returns the last element of the discard pile,
and fails with the builtin `IndexError` (not a custom `EmptyPileError`)
whenever the discard pile is empty (which should only occur before round
initialization). -/
theorem claim_C8 (st : Dealer) :
    (st.discard_pile = [] → top_card st = .error UnoError.indexError) ∧
    (∀ (l : List Card) (c : Card), st.discard_pile = l ++ [c] →
      top_card st = .ok c) := by
  constructor
  · intro h
    unfold top_card
    rw [h]
    rfl
  · intro l c h
    unfold top_card
    rw [h, List.getLast?_concat]

/-- C8 witness: on `stSmall` the discard pile is `[cR2]`, and `top_card`
returns `cR2`. -/
theorem claim_C8_witness : top_card stSmall = .ok cR2 :=
  (claim_C8 stSmall).2 [] cR2 rfl

/-- C5 (confirmed): with the draw pile empty and a discard pile of at least
two cards, a unit draw leaves exactly the old top card `cN` as the new
discard pile, appends to the hand the head of the shuffled-and-color-reset
remainder, and the drawn card together with the new draw pile is a
permutation of the old discard pile minus its top card (each wild card's
color reset to A, the value-level rendering of the in-place color reset);
every wild in the reshuffled pile carries color A.  The final conjunct shows
the reshuffle check is repeated per unit card inside a multi-card draw: each
unit of `draw_card` goes through `drawOneCard`, which performs the check. -/
theorem claim_C5 (shuf : List Card → List Card)
    (hsh : ∀ l : List Card, List.Perm (shuf l) l) (disc : List Card)
    (hN : 2 ≤ disc.length) (hand : Hand) :
    (drawOneCard shuf [] disc hand = .ok
      (((shuf disc.dropLast).map resetWild).tail,
        [disc.getLastD dCard],
        hand.append (((shuf disc.dropLast).map resetWild).headD dCard)) ∧
      disc.getLast? = some (disc.getLastD dCard) ∧
      List.Perm
        ((((shuf disc.dropLast).map resetWild).headD dCard) ::
          ((shuf disc.dropLast).map resetWild).tail)
        (disc.dropLast.map resetWild) ∧
      (∀ x ∈ (shuf disc.dropLast).map resetWild,
        (x.card_type = CardType.WILD ∨ x.card_type = CardType.WILD4) →
        x.color = CardColor.A)) ∧
    (∀ (n : Nat) (dp0 disc0 : List Card) (h0 : Hand),
      draw_card shuf (n + 1) dp0 disc0 h0 =
        match drawOneCard shuf dp0 disc0 h0 with
        | .error e => .error e
        | .ok (dp2, disc2, h2) => draw_card shuf n dp2 disc2 h2) := by
  have hne : disc ≠ [] := by
    intro h
    rw [h] at hN
    simp at hN
  have hlen : ((shuf disc.dropLast).map resetWild).length =
      disc.length - 1 := by
    rw [List.length_map, (hsh disc.dropLast).length_eq, List.length_dropLast]
  have hpos : 0 < ((shuf disc.dropLast).map resetWild).length := by
    omega
  rcases hmap : (shuf disc.dropLast).map resetWild with - | ⟨c, t⟩
  · rw [hmap] at hpos
    simp at hpos
  · rcases lastSlice_of_ne hne with ⟨cN, hlast, hslice⟩
    have hlastD : disc.getLastD dCard = cN := by
      rw [List.getLastD_eq_getLast?, hlast]
      rfl
    refine ⟨⟨?_, ?_, ?_, ?_⟩, fun n dp0 disc0 h0 => rfl⟩
    · unfold drawOneCard
      simp only [List.isEmpty_nil, if_true, hmap]
      rw [hlastD, ← hslice]
      rfl
    · rw [hlastD]
      exact hlast
    · have hcons : ((c :: t).headD dCard :: (c :: t).tail) = c :: t := rfl
      rw [hcons, ← hmap]
      exact (hsh disc.dropLast).map resetWild
    · intro x hx hw
      rw [← hmap] at hx
      rcases List.mem_map.mp hx with ⟨y, hy, hxy⟩
      subst hxy
      unfold resetWild
      split
      next => rfl
      next hnw =>
        unfold resetWild at hw
        rw [if_neg hnw] at hw
        exact absurd hw hnw

/-- C5 witness: reshuffling the concrete discard pile `discT` (a colored
wild below the top card) with the identity shuffle: the drawn card is the
red 1, the wild moved to the draw pile has its color reset to A, and the
discard pile shrinks to the old top card. -/
theorem claim_C5_witness :
    drawOneCard id [] discT Hand.empty = .ok
      ([⟨CardColor.A, CardType.WILD⟩], [⟨CardColor.B, CardType.N3⟩],
        ⟨[⟨CardColor.R, CardType.N1⟩], 1⟩) :=
  ((claim_C5 id (fun l => List.Perm.refl l) discT (by decide)
    Hand.empty).1.1).trans (by decide)

/-- C6 (confirmed): the winning threshold is 500; after the post-round
scoring step the game-winner flag is set exactly when the round winner's new
cumulative points reach the threshold, the round winner's points grow by the
cached round sum, and the game loop stops as soon as the flag is set and
otherwise plays another round.  Concretely, a winner going from 480 to 485
does not end the game, while 480 to 520 does. -/
theorem claim_C6 (shuf : List Card → List Card)
    (playFn : Hand → Card → Option (Card × Hand)) (innerFuel : Nat) :
    Constants.MAX_POINTS = 500 ∧
    (∀ (st : Dealer) (w : Nat) (winner : Player),
      st.has_winner = false →
      pyIdx st.players.length st.current_player_index = some w →
      st.players[w]? = some winner →
      ∀ st2, finish_round st = .ok st2 →
        (st2.has_winner = true ↔
          Constants.MAX_POINTS ≤ winner.points + roundPointsCached st) ∧
        ∀ q, st2.players[w]? = some q →
          q.points = winner.points + roundPointsCached st) ∧
    ((finish_round stA480).toOption.map Dealer.has_winner = some false) ∧
    ((finish_round stB480).toOption.map Dealer.has_winner = some true) ∧
    (∀ (f : Nat) (st : Dealer), st.has_winner = true →
      play_game shuf playFn innerFuel (f + 1) st = .ok (some st)) ∧
    (∀ (f : Nat) (st : Dealer), st.has_winner = false →
      play_game shuf playFn innerFuel (f + 1) st =
        match play_round shuf playFn innerFuel st with
        | .error e => .error e
        | .ok none => .ok none
        | .ok (some st2) => play_game shuf playFn innerFuel f st2) := by
  refine ⟨rfl, ?_, by decide, by decide, ?_, ?_⟩
  · intro st w winner hfalse hw hwin st2 hfin
    rcases finish_round_spec hw hwin with ⟨st2also, heq, hhw, hwq, -⟩
    rw [heq] at hfin
    injection hfin with h'
    subst h'
    constructor
    · rw [hhw, hfalse]
      by_cases hc : Constants.MAX_POINTS ≤ winner.points + roundPointsCached st
      · rw [if_pos hc]
        simp [hc]
      · rw [if_neg hc]
        simp [hc]
    · intro q hq
      rw [hwq] at hq
      injection hq with h'
      rw [← h']
  · intro f st h
    conv_lhs => unfold play_game
    rw [h]
    rfl
  · intro f st h
    conv_lhs => unfold play_game
    rw [h]
    rfl

/-- C6 witness: the concrete 480-to-520 state `stB480`: the scoring step
flags the game winner. -/
theorem claim_C6_witness : stB480res.has_winner = true := by
  have h := ((claim_C6 id popFront 0).2.1 stB480 0
    ⟨0, ⟨[], 0⟩, 480⟩ rfl rfl rfl stB480res rfl).1
  exact h.mpr (by decide)

/-- C1 (confirmed): card conservation.  The freshly constructed dealer holds
exactly 108 cards, adding a player (with an empty hand) preserves the total,
and each state-changing operation of a round — `init_round` (from the
reachable empty-discard-pile configuration), `draw_card` (lifted to the
dealer as `dealerDraw`), `play_move` and `collect_cards` — preserves
`|draw pile| + |discard pile| + Σ|hand_i|` whenever it succeeds; hence the
invariant value 108 holds in every reachable state.  The shuffle oracle is
assumed length-preserving and the player oracle removes exactly the card it
plays. -/
theorem claim_C1 (shuf : List Card → List Card)
    (hlen : ∀ l : List Card, (shuf l).length = l.length)
    (playFn : Hand → Card → Option (Card × Hand)) (hpc : PlayCount playFn) :
    totalCards Dealer.init = 108 ∧
    (∀ (st : Dealer) (pid : Nat),
      totalCards (add_player st pid) = totalCards st) ∧
    (∀ st st2 : Dealer, st.discard_pile = [] →
      init_round shuf st = .ok st2 → totalCards st2 = totalCards st) ∧
    (∀ (st : Dealer) (i n : Nat) (st2 : Dealer),
      dealerDraw shuf st i n = .ok st2 → totalCards st2 = totalCards st) ∧
    (∀ (st : Dealer) (i : Nat) (pac : Bool) (st2 : Dealer) (b : Bool),
      play_move shuf playFn st i pac = .ok (st2, b) →
      totalCards st2 = totalCards st) ∧
    (∀ st : Dealer, totalCards (collect_cards st) = totalCards st) := by
  refine ⟨by decide, ?_, ?_, ?_, ?_, collect_cards_total⟩
  · intro st pid
    unfold totalCards add_player
    simp [mkPlayer, Hand.empty]
  · intro st st2 hd h
    exact init_round_total hlen hd h
  · intro st i n st2 h
    exact dealerDraw_total hlen h
  · intro st i pac st2 b h
    exact play_move_total hlen hpc h

/-- C1 witness: initializing a round for two players from the full fresh
108-card deck (identity shuffle) leaves exactly 108 cards across the piles
and hands. -/
theorem claim_C1_witness : totalCards stW1 = 108 := by
  have h := (claim_C1 id (fun l => rfl) popFront popFront_count).2.2.1
    st2p stW1 rfl rfl
  rw [h]
  decide

/-- C4 (confirmed): move resolution.  With active card `a` on top of the
discard pile: a pending Skip leaves the state unchanged and returns `false`;
a pending DrawTwo (resp. WildDrawFour) makes the player draw exactly 2
(resp. 4) cards into their hand, plays nothing and returns `false`;
otherwise, when the player plays a card `c`, the discard pile gains exactly
`c`, the turn direction flips iff `c` is a Reverse, and the returned flag is
true iff `c` is Skip, DrawTwo or WildDrawFour. -/
theorem claim_C4 (shuf : List Card → List Card)
    (playFn : Hand → Card → Option (Card × Hand)) (st : Dealer) (i : Nat)
    (pac : Bool) (a : Card) (htop : top_card st = .ok a) :
    (a.card_type = CardType.SKIP → pac = true →
      play_move shuf playFn st i pac = .ok (st, false)) ∧
    (a.card_type = CardType.DRAW2 → pac = true →
      ∀ (st2 : Dealer) (b : Bool),
        play_move shuf playFn st i pac = .ok (st2, b) →
        b = false ∧ ∃ c1 c2,
          (handOf st2 i).data = (handOf st i).data ++ [c1, c2]) ∧
    (a.card_type = CardType.WILD4 → pac = true →
      ∀ (st2 : Dealer) (b : Bool),
        play_move shuf playFn st i pac = .ok (st2, b) →
        b = false ∧ ∃ c1 c2 c3 c4,
          (handOf st2 i).data = (handOf st i).data ++ [c1, c2, c3, c4]) ∧
    (∀ (stx : Dealer) (j : Nat) (p : Player) (c : Card) (h : Hand),
      stx.players[j]? = some p →
      (place_card stx j c h).1.turn_direction =
        (if c.card_type = CardType.REV then -stx.turn_direction
         else stx.turn_direction) ∧
      (place_card stx j c h).2 = decide (c.card_type = CardType.SKIP ∨
        c.card_type = CardType.DRAW2 ∨ c.card_type = CardType.WILD4) ∧
      (place_card stx j c h).1.discard_pile = stx.discard_pile ++ [c]) ∧
    (¬(a.card_type = CardType.SKIP ∧ pac = true) →
     ¬(a.card_type = CardType.DRAW2 ∧ pac = true) →
     ¬(a.card_type = CardType.WILD4 ∧ pac = true) →
     ∀ p, st.players[i]? = some p →
     ∀ (c : Card) (h : Hand), playFn p.cards a = some (c, h) →
       play_move shuf playFn st i pac = .ok (place_card st i c h)) := by
  refine ⟨?_, ?_, ?_, ?_, ?_⟩
  · intro ha hpac
    unfold play_move
    rw [htop]
    simp only
    rw [if_pos ⟨ha, hpac⟩]
  · intro ha hpac st2 b hmove
    rcases play_move_cases htop hmove with
      ⟨h1, -⟩ | ⟨-, -, hdr, hb⟩ | ⟨h1, -⟩ | ⟨-, h2, -⟩
    · rw [ha] at h1; cases h1
    · refine ⟨hb, ?_⟩
      rcases dealerDraw_handOf hdr with ⟨l, hl, hdata⟩
      rcases l with - | ⟨c1, l⟩
      · simp at hl
      rcases l with - | ⟨c2, l⟩
      · simp at hl
      rcases l with - | ⟨c3, l⟩
      · exact ⟨c1, c2, hdata⟩
      · simp at hl
    · rw [ha] at h1; cases h1
    · exact absurd ⟨ha, hpac⟩ h2
  · intro ha hpac st2 b hmove
    rcases play_move_cases htop hmove with
      ⟨h1, -⟩ | ⟨h1, -⟩ | ⟨-, -, hdr, hb⟩ | ⟨-, -, h3, -⟩
    · rw [ha] at h1; cases h1
    · rw [ha] at h1; cases h1
    · refine ⟨hb, ?_⟩
      rcases dealerDraw_handOf hdr with ⟨l, hl, hdata⟩
      rcases l with - | ⟨c1, l⟩
      · simp at hl
      rcases l with - | ⟨c2, l⟩
      · simp at hl
      rcases l with - | ⟨c3, l⟩
      · simp at hl
      rcases l with - | ⟨c4, l⟩
      · simp at hl
      rcases l with - | ⟨c5, l⟩
      · exact ⟨c1, c2, c3, c4, hdata⟩
      · simp at hl
    · exact absurd ⟨ha, hpac⟩ h3
  · intro stx j p c h hp
    rcases place_card_eq hp c h with ⟨-, -, hdisc, hdir, -, -, -, -, -, hflag⟩
    refine ⟨hdir, ?_, hdisc⟩
    rw [hflag]
    by_cases hrev : c.card_type = CardType.REV
    · rw [if_pos hrev, hrev]
      decide
    · rw [if_neg hrev]
  · intro h1 h2 h3 p hp c h hplay
    unfold play_move
    rw [htop]
    simp only
    rw [if_neg h1, if_neg h2, if_neg h3, hp]
    simp only
    rw [hplay]

/-- C4 witness: player 0 absorbing a pending DrawTwo in `stD2` draws exactly
two cards (hand grows from 1 to 3) and the returned flag is false. -/
theorem claim_C4_witness :
    stD2res.2 = false ∧ (handOf stD2res.1 0).data.length = 3 := by
  have h := (claim_C4 id popFront stD2 0 true
    ⟨CardColor.R, CardType.DRAW2⟩ rfl).2.1 rfl rfl stD2res.1 stD2res.2 rfl
  rcases h with ⟨hb, c1, c2, hdata⟩
  refine ⟨hb, ?_⟩
  have h1 : (handOf stD2 0).data.length = 1 := by decide
  rw [hdata, List.length_append, h1]
  rfl

/-- C10 (confirmed): a move that absorbs a pending action never shrinks the
acting player's hand (unchanged for Skip, +2 for DrawTwo, +4 for
WildDrawFour), so a player with a nonempty hand still has one after such a
move; and whenever a successful move takes a hand from nonempty to empty,
that move went through the card-placement path, appending the played card to
the discard pile — so the round winner's final move always placed a card. -/
theorem claim_C10 (shuf : List Card → List Card)
    (playFn : Hand → Card → Option (Card × Hand)) (st : Dealer) (i : Nat)
    (pac : Bool) (a : Card) (htop : top_card st = .ok a) (st2 : Dealer)
    (b : Bool) (hmove : play_move shuf playFn st i pac = .ok (st2, b)) :
    (pac = true → a.card_type = CardType.SKIP → st2 = st) ∧
    (pac = true → a.card_type = CardType.DRAW2 →
      (handOf st2 i).data.length = (handOf st i).data.length + 2) ∧
    (pac = true → a.card_type = CardType.WILD4 →
      (handOf st2 i).data.length = (handOf st i).data.length + 4) ∧
    (pac = true →
      (a.card_type = CardType.SKIP ∨ a.card_type = CardType.DRAW2 ∨
        a.card_type = CardType.WILD4) →
      0 < (handOf st i).data.length → 0 < (handOf st2 i).data.length) ∧
    (0 < (handOf st i).data.length → (handOf st2 i).data.length = 0 →
      ∃ (stx : Dealer) (c : Card) (h : Hand),
        (st2, b) = place_card stx i c h ∧ h.data = [] ∧
        st2.discard_pile = stx.discard_pile ++ [c]) := by
  have hskip : pac = true → a.card_type = CardType.SKIP → st2 = st := by
    intro hpac ha
    rcases play_move_cases htop hmove with
      ⟨-, -, hst, -⟩ | ⟨h1, -⟩ | ⟨h1, -⟩ | ⟨h1, -⟩
    · exact hst
    · rw [ha] at h1; cases h1
    · rw [ha] at h1; cases h1
    · exact absurd ⟨ha, hpac⟩ h1
  have hd2 : pac = true → a.card_type = CardType.DRAW2 →
      (handOf st2 i).data.length = (handOf st i).data.length + 2 := by
    intro hpac ha
    rcases play_move_cases htop hmove with
      ⟨h1, -⟩ | ⟨-, -, hdr, -⟩ | ⟨h1, -⟩ | ⟨-, h2, -⟩
    · rw [ha] at h1; cases h1
    · rcases dealerDraw_handOf hdr with ⟨l, hl, hdata⟩
      rw [hdata, List.length_append, hl]
    · rw [ha] at h1; cases h1
    · exact absurd ⟨ha, hpac⟩ h2
  have hd4 : pac = true → a.card_type = CardType.WILD4 →
      (handOf st2 i).data.length = (handOf st i).data.length + 4 := by
    intro hpac ha
    rcases play_move_cases htop hmove with
      ⟨h1, -⟩ | ⟨h1, -⟩ | ⟨-, -, hdr, -⟩ | ⟨-, -, h3, -⟩
    · rw [ha] at h1; cases h1
    · rw [ha] at h1; cases h1
    · rcases dealerDraw_handOf hdr with ⟨l, hl, hdata⟩
      rw [hdata, List.length_append, hl]
    · exact absurd ⟨ha, hpac⟩ h3
  refine ⟨hskip, hd2, hd4, ?_, ?_⟩
  · intro hpac hmem hpos
    rcases hmem with ha | ha | ha
    · rw [hskip hpac ha]
      exact hpos
    · rw [hd2 hpac ha]
      omega
    · rw [hd4 hpac ha]
      omega
  · intro hpos hzero
    rcases play_move_cases htop hmove with
      ⟨-, -, hst, -⟩ | ⟨-, -, hdr, -⟩ | ⟨-, -, hdr, -⟩ |
      ⟨-, -, -, p, hp, hrest⟩
    · rw [hst] at hzero
      omega
    · rcases dealerDraw_handOf hdr with ⟨l, hl, hdata⟩
      rw [hdata, List.length_append] at hzero
      omega
    · rcases dealerDraw_handOf hdr with ⟨l, hl, hdata⟩
      rw [hdata, List.length_append] at hzero
      omega
    · rcases hrest with ⟨c, h, hplay, hpl⟩ | ⟨-, stm, hdr, p2, hp2, hrest2⟩
      · have hst2 : st2 = (place_card st i c h).1 := by rw [← hpl]
        have hho : handOf st2 i = h := by
          rw [hst2]
          exact place_card_handOf hp c h
        rcases place_card_eq hp c h with ⟨-, -, hdisc, -⟩
        refine ⟨st, c, h, hpl, ?_, by rw [hst2]; exact hdisc⟩
        rw [← hho]
        exact List.length_eq_zero.mp hzero
      · rcases dealerDraw_handOf hdr with ⟨l, hl, hdatam⟩
        rcases hrest2 with ⟨-, hst, -⟩ | ⟨c, h, hplay2, hpl⟩
        · rw [hst] at hzero
          rw [hdatam, List.length_append] at hzero
          omega
        · have hst2 : st2 = (place_card stm i c h).1 := by rw [← hpl]
          have hho : handOf st2 i = h := by
            rw [hst2]
            exact place_card_handOf hp2 c h
          rcases place_card_eq hp2 c h with ⟨-, -, hdisc, -⟩
          refine ⟨stm, c, h, hpl, ?_, by rw [hst2]; exact hdisc⟩
          rw [← hho]
          exact List.length_eq_zero.mp hzero

/-- C10 witness: player 0 absorbing a pending Skip in `stSK` has an entirely
unchanged state (their one card stays in hand, so the round does not end on
this move). -/
theorem claim_C10_witness : stSKres.1 = stSK ∧ stSKres.2 = false := by
  have h := (claim_C10 id popFront stSK 0 true
    ⟨CardColor.R, CardType.SKIP⟩ rfl stSKres.1 stSKres.2 rfl).1 rfl rfl
  exact ⟨h, by decide⟩

/-- C3 (confirmed): round end and scoring.  Inside the round loop, when the
acting player's hand goes from nonempty to empty across their move, the loop
ends immediately with that player's post-move state (regardless of the
pending-action flag the move just returned), and the scoring step credits
exactly the sum of all other players' hand values at that instant to that
player (the winner's own empty hand contributing 0, so the cached full-player
sum used by the code equals the losers' sum); when the hand is still
nonempty the loop continues with the advanced player index instead.  Cached
hand points are assumed correct after the move, which claim C9 and the
player contract establish. -/
theorem claim_C3 (shuf : List Card → List Card)
    (playFn : Hand → Card → Option (Card × Hand)) (st : Dealer) (pac : Bool)
    (i : Nat) (st2 : Dealer) (pac2 : Bool)
    (hi : pyIdx st.players.length st.current_player_index = some i)
    (hmove : play_move shuf playFn (bump st) i pac = .ok (st2, pac2))
    (hne : 0 < (handOf st i).data.length)
    (hinv : ∀ p ∈ st2.players, HandInv p.cards) :
    ((handOf st2 i).data.length = 0 →
      loop_iteration shuf playFn st pac = .ok (.inl st2) ∧
      ∃ (winner : Player) (st3 : Dealer), st2.players[i]? = some winner ∧
        finish_round st2 = .ok st3 ∧
        ∃ winner2, st3.players[i]? = some winner2 ∧
          winner2.points = winner.points +
            ((st2.players.eraseIdx i).map
              (fun p => handSum p.cards.data)).sum) ∧
    ((handOf st2 i).data.length ≠ 0 →
      loop_iteration shuf playFn st pac = .ok (.inr
        ({ st2 with current_player_index :=
          (st2.current_player_index + st2.turn_direction) %
            (st2.players.length : Int) }, pac2))) := by
  have hframe := play_move_frame hmove
  have hlen2 : st2.players.length = st.players.length := by
    have := hframe.1
    simpa [bump] using this
  have hcpi2 : st2.current_player_index = st.current_player_index := by
    have := hframe.2.1
    simpa [bump] using this
  have hw2 : pyIdx st2.players.length st2.current_player_index = some i := by
    rw [hlen2, hcpi2]
    exact hi
  constructor
  · intro hzero
    refine ⟨loop_iteration_end hi hmove hzero, ?_⟩
    rcases @get_of_lt Player st2.players i
      (by rw [hlen2]; exact pyIdx_lt hi) with ⟨winner, hwin⟩
    have hdata : winner.cards.data = [] := by
      have : handOf st2 i = winner.cards := by rw [handOf, hwin]
      rw [this] at hzero
      exact List.length_eq_zero.mp hzero
    rcases finish_round_spec hw2 hwin with ⟨st3, hok, -, hwq, -⟩
    refine ⟨winner, st3, hwin, hok, _, hwq, ?_⟩
    have hrpc : roundPointsCached st2 =
        ((st2.players.eraseIdx i).map (fun p => handSum p.cards.data)).sum := by
      unfold roundPointsCached
      rw [sum_points_eq_sum_handSum hinv]
      rw [sum_map_eraseIdx_int (fun p => handSum p.cards.data) st2.players i
        winner hwin]
      simp only [hdata, handSum_nil]
      omega
    simp only
    rw [hrpc]
  · intro hpos
    exact loop_iteration_continue hi hmove hpos

/-- C3 witness: from `stSmall`, player 0 plays their last card (the red 5 on
the red 2); the loop ends with player 0's post-move state. -/
theorem claim_C3_witness :
    loop_iteration id popFront stSmall false = .ok (.inl stC3after) := by
  have h := (claim_C3 id popFront stSmall false 0 stC3after false rfl rfl
    (by decide) (by decide)).1 (by decide)
  exact h.1

end Uno
